import Mathlib

/-!
Verification of the PyDSS simulation-clock / rolling-statistics subsystem
(`PyDSS/utils/simulation_utils.py`) and the protection-threshold configuration
model (`PyDSS/pyControllers/models.py`).

Times are modelled as exact rational numbers of seconds (Python `datetime` /
`timedelta` arithmetic is exact integer-microsecond arithmetic), float values
as `ℚ`.
-/

set_option autoImplicit false

namespace PyDSS

/-! ## CircularBufferHelper (`simulation_utils.py`, lines 16-33)

A sample pushed into the buffer is either a scalar float or a Python list of
floats (the code dispatches with `isinstance(self._buf[0], list)`). -/

inductive Sample where
  | scalar (v : ℚ)
  | vector (v : List ℚ)
  deriving DecidableEq, Repr

/-- `deque(maxlen=window_size)`: `buf` holds the samples oldest first. -/
structure CircularBufferHelper where
  window_size : ℕ
  buf : List Sample := []
  deriving DecidableEq, Repr

/-- The last `n` elements of a list (what a `deque(maxlen=n)` retains). -/
def takeLast {α : Type} (n : ℕ) (l : List α) : List α :=
  l.drop (l.length - n)

/-- `CircularBufferHelper.append`: `self._buf.append(val)` on a deque with
`maxlen=window_size` appends on the right and, if the deque is full, discards
the leftmost element — i.e. it retains the last `window_size` elements. -/
def CircularBufferHelper.append (b : CircularBufferHelper) (val : Sample) :
    CircularBufferHelper :=
  { b with buf := takeLast b.window_size (b.buf ++ [val]) }

/-- `CircularBufferHelper.__len__`. -/
def CircularBufferHelper.length (b : CircularBufferHelper) : ℕ :=
  b.buf.length

/-- Result of `CircularBufferHelper.average()`: the `assert self._buf`
failure, the `np.NaN` warm-up sentinel, a scalar mean, the rolling-mean
matrix of the vector branch, or the `TypeError` Python's `sum` raises on a
buffer whose head is a scalar but which also holds lists. -/
inductive AvgResult where
  | assertionError
  | nan
  | scalar (q : ℚ)
  | matrix (m : List (List (Option ℚ)))
  | typeError
  deriving DecidableEq, Repr

/-- Python `sum` over the buffer: defined only when every element is a
scalar, otherwise `sum` raises `TypeError`. -/
def sumScalars : List Sample → Option ℚ
  | [] => some 0
  | Sample.scalar v :: rest => (sumScalars rest).map (fun s => v + s)
  | Sample.vector _ :: _ => none

/-- A buffered sample as a `pd.DataFrame` row. -/
def toRow : Sample → List ℚ
  | Sample.scalar v => [v]
  | Sample.vector v => v

/-- The rows feeding the trailing window ending at row `i` (width `w`). -/
def windowRows (rows : List (List ℚ)) (w i : ℕ) : List (List ℚ) :=
  (rows.take (i + 1)).drop (i + 1 - w)

/-- Mean of column `j` over a block of rows (rows are rectangular in any
run the source can produce, so `getD` padding is never exercised). -/
def colMean (rows : List (List ℚ)) (j : ℕ) : ℚ :=
  (rows.map (fun r => r.getD j 0)).sum / rows.length

/-- `pd.DataFrame(buf).rolling(w).mean().values`: row `i` is all-NaN until
`w` rows are available, then the columnwise mean of the trailing `w` rows. -/
def rollingMean (w : ℕ) (rows : List (List ℚ)) : List (List (Option ℚ)) :=
  (List.range rows.length).map (fun i =>
    (List.range (rows.headD []).length).map (fun j =>
      if i + 1 < w then none else some (colMean (windowRows rows w i) j)))

/-- `CircularBufferHelper.average` (`simulation_utils.py`, lines 27-33):
asserts the buffer non-empty; if the first element is a list, returns the
rolling-mean matrix; otherwise returns NaN while fewer than `window_size`
samples are held, else `sum(self._buf) / len(self._buf)`. -/
def CircularBufferHelper.average (b : CircularBufferHelper) : AvgResult :=
  match b.buf with
  | [] => AvgResult.assertionError
  | Sample.vector _ :: _ => AvgResult.matrix (rollingMean b.window_size (b.buf.map toRow))
  | Sample.scalar _ :: _ =>
    if b.buf.length < b.window_size then AvgResult.nan
    else
      match sumScalars b.buf with
      | some s => AvgResult.scalar (s / (b.buf.length : ℚ))
      | none => AvgResult.typeError

/-- Feed a list of scalar samples into a fresh buffer of the given capacity. -/
def runBuffer (window_size : ℕ) (xs : List ℚ) : CircularBufferHelper :=
  (xs.map Sample.scalar).foldl CircularBufferHelper.append ⟨window_size, []⟩

/-! ## TimerStats (`simulation_utils.py`, lines 36-82) -/

structure TimerStats where
  label : String
  count : ℕ := 0
  max : ℚ := 0
  min : Option ℚ := none
  avg : ℚ := 0
  total : ℚ := 0
  deriving DecidableEq, Repr

/-- The dict returned by `TimerStats.get_stats` (`min` is `None` before any
sample is recorded). -/
structure StatsSummary where
  min : Option ℚ
  max : ℚ
  total : ℚ
  avg : ℚ
  count : ℕ
  deriving DecidableEq, Repr

/-- `TimerStats.get_stats` (lines 46-61): reads the fields, computes
`avg = 0 if count == 0 else total / count`, and returns the summary dict.
The method writes no field, so the post-state is the receiver itself; the
pair makes that explicit. -/
def TimerStats.get_stats (s : TimerStats) : StatsSummary × TimerStats :=
  (⟨s.min, s.max, s.total, if s.count = 0 then 0 else s.total / (s.count : ℚ), s.count⟩, s)

/-- `TimerStats.update` (lines 75-82): `count += 1`, `total += duration`,
`max = duration` when `duration > max`, `min = duration` when `min` is
`None` or `duration < min`. -/
def TimerStats.update (s : TimerStats) (duration : ℚ) : TimerStats :=
  let s1 := { s with count := s.count + 1, total := s.total + duration }
  let s2 := if s1.max < duration then { s1 with max := duration } else s1
  match s2.min with
  | none => { s2 with min := some duration }
  | some m => if duration < m then { s2 with min := some duration } else s2

/-- Record a list of durations into a fresh `TimerStats` and read the stats. -/
def timerStatsAfter (label : String) (ds : List ℚ) : StatsSummary :=
  (TimerStats.get_stats (ds.foldl TimerStats.update { label := label })).1

/-! ## Simulation clock (`simulation_utils.py`, lines 85-157)

`settings['Project']` supplies a start time, a step resolution in seconds and
a duration in minutes; timestamps are rationals (seconds). -/

structure ProjectSettings where
  start_time : ℚ
  step_resolution_sec : ℚ
  simulation_duration_min : ℚ
  loadshape_start_time : ℚ
  deriving DecidableEq, Repr

/-- `get_start_time`: parses `settings['Project']["Start time"]`. -/
def get_start_time (s : ProjectSettings) : ℚ :=
  s.start_time

/-- `get_simulation_resolution` (lines 101-114):
`timedelta(seconds=settings["Project"]["Step resolution (sec)"])` — the value
is returned unchecked (no validation of positivity). -/
def get_simulation_resolution (s : ProjectSettings) : ℚ :=
  s.step_resolution_sec

/-- `create_time_range_from_settings` (lines 117-134): `(start, end, step)`
with `end = start + timedelta(minutes=duration)`. -/
def create_time_range_from_settings (s : ProjectSettings) : ℚ × ℚ × ℚ :=
  (get_start_time s, get_start_time s + 60 * s.simulation_duration_min,
    get_simulation_resolution s)

/-- The `while cur_time < end_time` loop of `create_datetime_index_from_settings`
(lines 151-156), with explicit fuel: `some l` means the loop terminates with
the list `l` given that much fuel; `none` means the fuel ran out with the
loop still running. -/
def clockLoop (step endT : ℚ) : ℕ → ℚ → Option (List ℚ)
  | 0, cur => if cur < endT then none else some []
  | fuel + 1, cur =>
    if cur < endT then (clockLoop step endT fuel (cur + step)).map (fun l => cur :: l)
    else some []

/-- The number of iterations the loop performs when `step > 0`. -/
def clockCount (start endT step : ℚ) : ℕ :=
  (⌈(endT - start) / step⌉).toNat

/-- The loop terminates from `start` (with some amount of fuel). -/
def clockTerminates (start endT step : ℚ) : Prop :=
  ∃ fuel l, clockLoop step endT fuel start = some l

/-- `create_datetime_index_from_settings` (lines 137-157): run the loop with
the fuel that suffices whenever the resolution is positive; `none` reports
divergence. -/
def create_datetime_index_from_settings (s : ProjectSettings) : Option (List ℚ) :=
  let r := create_time_range_from_settings s
  clockLoop r.2.2 r.2.1 (clockCount r.1 r.2.1 r.2.2) r.1

/-- The closed form of the timestamp sequence: `t_i = start + i * step` for
`i < clockCount start endT step`. -/
def specTimestamps (start endT step : ℚ) : List ℚ :=
  (List.range (clockCount start endT step)).map (fun i : ℕ => start + (i : ℚ) * step)

/-! ## Load-shape dataframes (`simulation_utils.py`, lines 160-205) -/

/-- `create_loadshape_pmult_dataframe` (lines 160-185): a dataframe (here an
association list) mapping `loadshape_start + k * interval` to the `k`-th
P-multiplier value, `k = 0 .. npts-1` (`npts = len(pmult)`, which
`pd.DataFrame` requires to match the index length). -/
def create_loadshape_pmult_dataframe (s : ProjectSettings) (interval : ℚ)
    (pmult : List ℚ) : List (ℚ × ℚ) :=
  pmult.enum.map (fun p => (s.loadshape_start_time + (p.1 : ℚ) * interval, p.2))

/-- `df.loc[simulation_index]` (line 205): select, in order, the row of each
requested timestamp; pandas raises `KeyError` if any label is absent. -/
def dfLoc (df : List (ℚ × ℚ)) (idx : List ℚ) : Except String (List (ℚ × ℚ)) :=
  match idx.mapM (fun t => (df.lookup t).map (fun v => (t, v))) with
  | none => Except.error "MisalignedTimeSeries"
  | some rows => Except.ok rows

/-- `create_loadshape_pmult_dataframe_for_simulation` (lines 188-205). -/
def create_loadshape_pmult_dataframe_for_simulation (s : ProjectSettings)
    (interval : ℚ) (pmult : List ℚ) : Option (Except String (List (ℚ × ℚ))) :=
  (create_datetime_index_from_settings s).map
    (dfLoc (create_loadshape_pmult_dataframe s interval pmult))

/-! ## PvVoltageRideThruModel (`pyControllers/models.py`, lines 13-103)

The enum classes come from `PyDSS.pyControllers.enumerations`, which is not
part of the sources shown; the variants used by `models.py` and the spec are
modelled here. -/

/-- Modelled from the spec: `voltage_calc_mode ∈ {MAX, AVERAGE}`
(`enumerations.VoltageCalcModes` is not in the shown sources). -/
inductive VoltageCalcModes where
  | MAX
  | AVERAGE
  deriving DecidableEq, Repr

/-- Modelled from the spec: the IEEE standard enum
(`enumerations.PvStandard` is not in the shown sources). -/
inductive PvStandard where
  | IEEE_1547_2018
  | IEEE_1547_2003
  deriving DecidableEq, Repr

/-- `ride_through_category ∈ {I, II, III}`. -/
inductive RideThroughCategory where
  | CATEGORY_I
  | CATEGORY_II
  | CATEGORY_III
  deriving DecidableEq, Repr

/-- Modelled from the spec: `permissive_operation` behaviour enum
(`enumerations.PermissiveOperation` is not in the shown sources). -/
inductive PermissiveOperation where
  | CURRENT_LIMITED
  | MOMENTARY_CESSATION
  deriving DecidableEq, Repr

/-- Modelled from the spec: `may_trip_operation` behaviour enum
(`enumerations.MayTripOperation` is not in the shown sources). -/
inductive MayTripOperation where
  | TRIP
  | RIDE_THROUGH
  deriving DecidableEq, Repr

/-- Modelled from the spec: `multiple_disturbances` behaviour enum
(`enumerations.MultipleDisturbances` is not in the shown sources). -/
inductive MultipleDisturbances where
  | TRIP
  | RIDE_THROUGH
  deriving DecidableEq, Repr

/-- One category's fixed 8-tuple of voltage ride-through thresholds. -/
structure CategoryThresholds where
  OV2_PU : ℚ
  OV2_CT_SEC : ℚ
  OV1_PU : ℚ
  OV1_CT_SEC : ℚ
  UV1_PU : ℚ
  UV1_CT_SEC : ℚ
  UV2_PU : ℚ
  UV2_CT_SEC : ℚ
  deriving DecidableEq, Repr

/-- Modelled from the spec: the fixed Category-I constants of the standards
table (`enumerations.CategoryI` is not in the shown sources; the exact
numeric values are normative constants of IEEE 1547-2018 and none of the
claims depends on them, only on the table being fixed). -/
def CategoryI : CategoryThresholds :=
  ⟨12/10, 16/100, 11/10, 2, 7/10, 2, 45/100, 16/100⟩

/-- Modelled from the spec: the fixed Category-II constants
(`enumerations.CategoryII` is not in the shown sources). -/
def CategoryII : CategoryThresholds :=
  ⟨12/10, 16/100, 11/10, 2, 7/10, 10, 45/100, 32/100⟩

/-- Modelled from the spec: the fixed Category-III constants
(`enumerations.CategoryIII` is not in the shown sources). -/
def CategoryIII : CategoryThresholds :=
  ⟨12/10, 16/100, 11/10, 13, 88/100, 21, 1/2, 2⟩

/-- The fields of `PvVoltageRideThruModel` (`models.py`, lines 13-87).
`multiple_disturdances` keeps the source's spelling. -/
structure PvVoltageRideThruModel where
  kva : ℚ := 4
  max_kw : ℚ := 4
  voltage_calc_mode : VoltageCalcModes := VoltageCalcModes.MAX
  follow_standard : PvStandard := PvStandard.IEEE_1547_2018
  ride_through_category : RideThroughCategory := RideThroughCategory.CATEGORY_I
  ov_2_pu : ℚ := CategoryI.OV2_PU
  ov_2_ct_sec : ℚ := CategoryI.OV2_CT_SEC
  ov_1_pu : ℚ := CategoryI.OV1_PU
  ov_1_ct_sec : ℚ := CategoryI.OV1_CT_SEC
  uv_1_pu : ℚ := CategoryI.UV1_PU
  uv_1_ct_sec : ℚ := CategoryI.UV1_CT_SEC
  uv_2_pu : ℚ := CategoryI.UV2_PU
  uv_2_ct_sec : ℚ := CategoryI.UV2_CT_SEC
  reconnect_deadtime_sec : ℚ := 3000
  reconnect_pmax_time_sec : ℚ := 300
  permissive_operation : PermissiveOperation := PermissiveOperation.CURRENT_LIMITED
  may_trip_operation : MayTripOperation := MayTripOperation.TRIP
  multiple_disturdances : MultipleDisturbances := MultipleDisturbances.TRIP
  deriving DecidableEq, Repr

/-- `PvVoltageRideThruModel.update_settings` (`models.py`, lines 89-103):
the `model_validator(mode='after')` hook that overwrites the eight
threshold fields from the category via the `cat1`/`cat2` conditional chain. -/
def PvVoltageRideThruModel.update_settings (self : PvVoltageRideThruModel) :
    PvVoltageRideThruModel :=
  let cat1 := self.ride_through_category = RideThroughCategory.CATEGORY_I
  let cat2 := self.ride_through_category = RideThroughCategory.CATEGORY_II
  { self with
    ov_2_pu := if cat1 then CategoryI.OV2_PU else if cat2 then CategoryII.OV2_PU else CategoryIII.OV2_PU
    ov_1_pu := if cat1 then CategoryI.OV1_PU else if cat2 then CategoryII.OV1_PU else CategoryIII.OV1_PU
    uv_2_pu := if cat1 then CategoryI.UV2_PU else if cat2 then CategoryII.UV2_PU else CategoryIII.UV2_PU
    uv_1_pu := if cat1 then CategoryI.UV1_PU else if cat2 then CategoryII.UV1_PU else CategoryIII.UV1_PU
    ov_2_ct_sec := if cat1 then CategoryI.OV2_CT_SEC else if cat2 then CategoryII.OV2_CT_SEC else CategoryIII.OV2_CT_SEC
    ov_1_ct_sec := if cat1 then CategoryI.OV1_CT_SEC else if cat2 then CategoryII.OV1_CT_SEC else CategoryIII.OV1_CT_SEC
    uv_2_ct_sec := if cat1 then CategoryI.UV2_CT_SEC else if cat2 then CategoryII.UV2_CT_SEC else CategoryIII.UV2_CT_SEC
    uv_1_ct_sec := if cat1 then CategoryI.UV1_CT_SEC else if cat2 then CategoryII.UV1_CT_SEC else CategoryIII.UV1_CT_SEC }

/-- Pydantic construction of `PvVoltageRideThruModel`: field validation
(`ge=0.0` on `kva`, `max_kw`, `reconnect_deadtime_sec`,
`reconnect_pmax_time_sec`; the eight threshold fields carry no bounds), then
the `model_validator(mode='after')` hook `update_settings`. -/
def PvVoltageRideThruModel.construct (raw : PvVoltageRideThruModel) :
    Except String PvVoltageRideThruModel :=
  if 0 ≤ raw.kva ∧ 0 ≤ raw.max_kw ∧ 0 ≤ raw.reconnect_deadtime_sec ∧
      0 ≤ raw.reconnect_pmax_time_sec then
    Except.ok raw.update_settings
  else
    Except.error "ValidationError"

/-- The spec's "fixed standards table": the 8-tuple dictated by the
ride-through category. -/
def standardsTable : RideThroughCategory → CategoryThresholds
  | RideThroughCategory.CATEGORY_I => CategoryI
  | RideThroughCategory.CATEGORY_II => CategoryII
  | RideThroughCategory.CATEGORY_III => CategoryIII

/-! ## Lemmas about `takeLast` and the circular buffer -/

theorem takeLast_length {α : Type} (n : ℕ) (l : List α) :
    (takeLast n l).length = min n l.length := by
  simp only [takeLast, List.length_drop]
  omega

theorem takeLast_of_length_le {α : Type} {n : ℕ} {l : List α} (h : l.length ≤ n) :
    takeLast n l = l := by
  simp [takeLast, Nat.sub_eq_zero_of_le h]

theorem takeLast_takeLast_append {α : Type} (w : ℕ) (l r : List α) :
    takeLast w (takeLast w l ++ r) = takeLast w (l ++ r) := by
  have h1 : takeLast w l ++ r = (l ++ r).drop (l.length - w) := by
    rw [takeLast, List.drop_append_eq_append_drop]
    have h2 : l.length - w - l.length = 0 := by omega
    rw [h2, List.drop_zero]
  rw [takeLast, h1, List.drop_drop, takeLast]
  congr 1
  simp only [List.length_drop, List.length_append]
  omega

/-- Folding `append` over a list of samples retains exactly the last
`window_size` of the old contents followed by the new samples. -/
theorem foldl_append_buf (l : List Sample) :
    ∀ b : CircularBufferHelper, b.buf.length ≤ b.window_size →
      (l.foldl CircularBufferHelper.append b).buf = takeLast b.window_size (b.buf ++ l) ∧
      (l.foldl CircularBufferHelper.append b).window_size = b.window_size := by
  induction l with
  | nil =>
    intro b hb
    rw [List.foldl_nil, List.append_nil]
    exact ⟨(takeLast_of_length_le hb).symm, rfl⟩
  | cons x xs ih =>
    intro b hb
    have hlen : (b.append x).buf.length ≤ (b.append x).window_size := by
      show (takeLast b.window_size (b.buf ++ [x])).length ≤ b.window_size
      rw [takeLast_length]
      omega
    have h := ih (b.append x) hlen
    refine ⟨?_, h.2⟩
    rw [List.foldl_cons, h.1]
    show takeLast b.window_size (takeLast b.window_size (b.buf ++ [x]) ++ xs) = _
    rw [takeLast_takeLast_append, List.append_assoc]
    rfl

theorem runBuffer_buf (w : ℕ) (xs : List ℚ) :
    (runBuffer w xs).buf = ((xs.drop (xs.length - w)).map Sample.scalar) ∧
    (runBuffer w xs).window_size = w := by
  have h := foldl_append_buf (xs.map Sample.scalar) ⟨w, []⟩ (by simp)
  refine ⟨?_, h.2⟩
  rw [runBuffer, h.1]
  show takeLast w (xs.map Sample.scalar) = _
  rw [takeLast, List.length_map]
  simp [List.map_drop]

theorem sumScalars_map_scalar (xs : List ℚ) :
    sumScalars (xs.map Sample.scalar) = some xs.sum := by
  induction xs with
  | nil => rfl
  | cons x xs ih => simp [sumScalars, ih]

/-- `average` on a buffer holding only scalar samples. -/
theorem average_scalar_buf (b : CircularBufferHelper) (ys : List ℚ)
    (hb : b.buf = ys.map Sample.scalar) (hne : ys ≠ []) :
    b.average =
      if b.buf.length < b.window_size then AvgResult.nan
      else AvgResult.scalar (ys.sum / (b.buf.length : ℚ)) := by
  obtain ⟨y, ys', rfl⟩ := List.exists_cons_of_ne_nil hne
  have hs : sumScalars (Sample.scalar y :: ys'.map Sample.scalar) = some ((y :: ys').sum) := by
    have := sumScalars_map_scalar (y :: ys')
    rwa [List.map_cons] at this
  cases b with
  | mk ws buf =>
    dsimp only at hb
    subst hb
    simp only [CircularBufferHelper.average, List.map_cons, hs]

theorem runBuffer_average_full (w : ℕ) (xs : List ℚ) (h1 : 1 ≤ w) (h2 : w ≤ xs.length) :
    (runBuffer w xs).average = AvgResult.scalar ((xs.drop (xs.length - w)).sum / (w : ℚ)) := by
  obtain ⟨hbuf, hw⟩ := runBuffer_buf w xs
  have hlen : (xs.drop (xs.length - w)).length = w := by
    rw [List.length_drop]; omega
  have hne : xs.drop (xs.length - w) ≠ [] := by
    intro h
    rw [h] at hlen
    simp at hlen
    omega
  rw [average_scalar_buf _ _ hbuf hne, hbuf, List.length_map, hlen, hw]
  simp

/-- C3: a scalar buffer of capacity `w ≥ 1` fed more than `w` samples retains
exactly the most recent `w` samples (FIFO eviction; the buffer length never
exceeds the capacity), and `average` is the arithmetic mean of exactly those
`w` samples. -/
theorem circularBuffer_fifo_mean (w : ℕ) (xs : List ℚ) (h1 : 1 ≤ w) (h2 : w < xs.length) :
    (runBuffer w xs).buf = ((xs.drop (xs.length - w)).map Sample.scalar) ∧
    (runBuffer w xs).length = w ∧
    (∀ ys : List ℚ, (runBuffer w ys).length ≤ w) ∧
    (runBuffer w xs).average = AvgResult.scalar ((xs.drop (xs.length - w)).sum / (w : ℚ)) := by
  obtain ⟨hbuf, hw⟩ := runBuffer_buf w xs
  refine ⟨hbuf, ?_, ?_, runBuffer_average_full w xs h1 (le_of_lt h2)⟩
  · rw [CircularBufferHelper.length, hbuf, List.length_map, List.length_drop]
    omega
  · intro ys
    obtain ⟨hbuf2, hw2⟩ := runBuffer_buf w ys
    rw [CircularBufferHelper.length, hbuf2, List.length_map, List.length_drop]
    omega

/-- C3 witness: capacity 2 fed `[1, 2, 3]` keeps `[2, 3]` and averages to
`5/2 = 2.5`. -/
theorem circularBuffer_fifo_mean_witness :
    1 ≤ 2 ∧ 2 < ([1, 2, 3] : List ℚ).length ∧
    (runBuffer 2 [1, 2, 3]).buf = [Sample.scalar 2, Sample.scalar 3] ∧
    (runBuffer 2 [1, 2, 3]).average = AvgResult.scalar (5 / 2) := by
  have h := circularBuffer_fifo_mean 2 [1, 2, 3] (by norm_num) (by norm_num)
  refine ⟨by norm_num, by norm_num, ?_, ?_⟩
  · rw [h.1]
    decide
  · rw [h.2.2.2]
    norm_num

/-- C4: with capacity `w ≥ 1`, `average` returns the NaN warm-up sentinel
after `k` appends for `1 ≤ k < w`, and the numeric mean `sum / w` after the
`w`-th append. -/
theorem circularBuffer_warmup (w : ℕ) (xs : List ℚ) (h1 : 1 ≤ w) :
    (1 ≤ xs.length → xs.length < w → (runBuffer w xs).average = AvgResult.nan) ∧
    (xs.length = w → (runBuffer w xs).average = AvgResult.scalar (xs.sum / (w : ℚ))) := by
  obtain ⟨hbuf, hw⟩ := runBuffer_buf w xs
  constructor
  · intro ha hb
    have hd : xs.length - w = 0 := by omega
    rw [hd, List.drop_zero] at hbuf
    have hne : xs ≠ [] := by
      intro h
      subst h
      simp at ha
    rw [average_scalar_buf _ _ hbuf hne, hbuf, List.length_map, hw, if_pos hb]
  · intro hb
    have h := runBuffer_average_full w xs h1 (le_of_eq hb.symm)
    have hd : xs.length - w = 0 := by omega
    rw [h, hd, List.drop_zero]

/-- C4 witness: capacity 2; one append gives the NaN sentinel, the second
gives the numeric mean `3/2`. -/
theorem circularBuffer_warmup_witness :
    1 ≤ 2 ∧ (runBuffer 2 [1]).average = AvgResult.nan ∧
    (runBuffer 2 [1, 2]).average = AvgResult.scalar (3 / 2) := by
  refine ⟨by norm_num, ?_, ?_⟩
  · have h := (circularBuffer_warmup 2 [1] (by norm_num)).1 (by norm_num) (by norm_num)
    exact h
  · have h := (circularBuffer_warmup 2 [1, 2] (by norm_num)).2 (by norm_num)
    rw [h]
    norm_num

/-- C10: `average()` on a buffer that never received a sample is the
`assert self._buf` failure (not the NaN warm-up sentinel), and the assertion
can only fail on an empty buffer. -/
theorem average_empty_asserts (w : ℕ) (b : CircularBufferHelper) :
    CircularBufferHelper.average ⟨w, []⟩ = AvgResult.assertionError ∧
    CircularBufferHelper.average ⟨w, []⟩ ≠ AvgResult.nan ∧
    (b.buf = [] → b.average = AvgResult.assertionError) ∧
    (b.buf ≠ [] → b.average ≠ AvgResult.assertionError) := by
  have hempty : ∀ ws : ℕ, CircularBufferHelper.average ⟨ws, []⟩ = AvgResult.assertionError :=
    fun _ => rfl
  refine ⟨hempty w, ?_, ?_, ?_⟩
  · rw [hempty w]
    simp
  · intro h
    cases b with
    | mk ws buf =>
      dsimp only at h
      subst h
      exact hempty ws
  · intro hne
    cases hb : b.buf with
    | nil => exact absurd hb hne
    | cons s t =>
      cases s with
      | vector v => simp [CircularBufferHelper.average, hb]
      | scalar q =>
        simp only [CircularBufferHelper.average, hb]
        split
        · simp
        · split <;> simp

/-- C10 witness: a one-sample buffer does not hit the assertion. -/
theorem average_empty_asserts_witness :
    ([Sample.scalar 1] : List Sample) ≠ [] ∧
    CircularBufferHelper.average ⟨2, [Sample.scalar 1]⟩ ≠ AvgResult.assertionError :=
  ⟨by simp, (average_empty_asserts 2 ⟨2, [Sample.scalar 1]⟩).2.2.2 (by simp)⟩

/-- C5 counterexample: a buffer already holding a scalar accepts a vector
sample of different dimensionality — `append` performs no shape check, so no
`ShapeMismatch` failure occurs and the mixed-shape buffer results. -/
theorem append_shape_check_cex :
    (CircularBufferHelper.append (CircularBufferHelper.append ⟨2, []⟩ (Sample.scalar 1))
        (Sample.vector [1, 2])).buf = [Sample.scalar 1, Sample.vector [1, 2]] := by
  decide

/-- C5 amended: `append` always succeeds, whatever the sample's shape: it
stores the new sample as the newest element, evicting from the front only
when the buffer is at capacity. -/
theorem append_stores (b : CircularBufferHelper) (v : Sample) (h : 1 ≤ b.window_size) :
    (b.append v).buf = b.buf.drop (b.buf.length + 1 - b.window_size) ++ [v] := by
  show takeLast b.window_size (b.buf ++ [v]) = _
  rw [takeLast, List.length_append, List.drop_append_eq_append_drop]
  have h1 : b.buf.length + [v].length - b.window_size - b.buf.length = 0 := by
    simp only [List.length_singleton]
    omega
  rw [h1, List.drop_zero]
  congr 2

/-- C5 amended witness: the mixed-shape append at capacity 2. -/
theorem append_stores_witness :
    1 ≤ (CircularBufferHelper.mk 2 [Sample.scalar 1]).window_size ∧
    ((CircularBufferHelper.mk 2 [Sample.scalar 1]).append (Sample.vector [1, 2])).buf =
      [Sample.scalar 1].drop (1 + 1 - 2) ++ [Sample.vector [1, 2]] :=
  ⟨by decide,
    append_stores ⟨2, [Sample.scalar 1]⟩ (Sample.vector [1, 2]) (by decide)⟩

/-! ## Lemmas about the clock loop -/

/-- With a non-positive step and the cursor before the end, the loop never
terminates: no amount of fuel yields a result. -/
theorem clockLoop_nonpos (step endT : ℚ) (hstep : step ≤ 0) :
    ∀ (fuel : ℕ) (cur : ℚ), cur < endT → clockLoop step endT fuel cur = none := by
  intro fuel
  induction fuel with
  | zero =>
    intro cur h
    simp [clockLoop, h]
  | succ n ih =>
    intro cur h
    have h2 : cur + step < endT := by linarith
    simp [clockLoop, h, ih (cur + step) h2]

theorem range_map_arith (m : ℕ) (cur step : ℚ) :
    (List.range (m + 1)).map (fun i : ℕ => cur + (i : ℚ) * step) =
      cur :: (List.range m).map (fun i : ℕ => (cur + step) + (i : ℚ) * step) := by
  rw [List.range_succ_eq_map, List.map_cons, List.map_map]
  congr 1
  · norm_num
  · apply List.map_congr_left
    intro i _
    simp only [Function.comp_apply]
    push_cast
    ring

/-- With a positive step, `clockCount` is exactly the fuel the loop needs,
and the result is the closed-form sequence `cur + i * step`. -/
theorem clockLoop_pos (step : ℚ) (hs : 0 < step) :
    ∀ (n : ℕ) (cur endT : ℚ), clockCount cur endT step = n →
      clockLoop step endT n cur =
        some ((List.range n).map (fun i : ℕ => cur + (i : ℚ) * step)) := by
  intro n
  induction n with
  | zero =>
    intro cur endT h
    have hge : ¬ cur < endT := by
      intro hlt
      have hpos : 0 < (endT - cur) / step := div_pos (by linarith) hs
      have hceil : 0 < ⌈(endT - cur) / step⌉ := Int.ceil_pos.mpr hpos
      unfold clockCount at h
      omega
    simp [clockLoop, hge]
  | succ m ih =>
    intro cur endT h
    have hlt : cur < endT := by
      by_contra hge
      have hnp : (endT - cur) / step ≤ 0 :=
        div_nonpos_iff.mpr (Or.inr ⟨by linarith, le_of_lt hs⟩)
      have hceil : ⌈(endT - cur) / step⌉ ≤ 0 := by
        rw [Int.ceil_le]
        exact_mod_cast hnp
      unfold clockCount at h
      omega
    have hstep0 : step ≠ 0 := ne_of_gt hs
    have hdiv : (endT - (cur + step)) / step = (endT - cur) / step - 1 := by
      field_simp
      ring
    have hcount : clockCount (cur + step) endT step = m := by
      unfold clockCount at h ⊢
      rw [hdiv, Int.ceil_sub_one]
      omega
    rw [clockLoop, if_pos hlt, ih (cur + step) endT hcount]
    simp only [Option.map]
    rw [range_map_arith]

/-- The loop iteration count is characterized by `cur + i * step < endT`. -/
theorem clockCount_iff (start endT step : ℚ) (hs : 0 < step) (i : ℕ) :
    i < clockCount start endT step ↔ start + (i : ℚ) * step < endT := by
  unfold clockCount
  rw [Int.lt_toNat, Int.lt_ceil, lt_div_iff₀ hs]
  push_cast
  constructor <;> intro h <;> linarith

/-- C2: with a positive resolution, the timestamp sequence the code produces
is exactly `t_i = start + i * resolution` for the `i` with `t_i < end`,
where `end = start + duration`. -/
theorem create_datetime_index_correct (s : ProjectSettings)
    (hs : 0 < s.step_resolution_sec) :
    create_datetime_index_from_settings s =
      some (specTimestamps s.start_time (s.start_time + 60 * s.simulation_duration_min)
        s.step_resolution_sec) ∧
    ∀ i : ℕ,
      i < clockCount s.start_time (s.start_time + 60 * s.simulation_duration_min)
          s.step_resolution_sec ↔
        s.start_time + (i : ℚ) * s.step_resolution_sec <
          s.start_time + 60 * s.simulation_duration_min := by
  constructor
  · exact clockLoop_pos s.step_resolution_sec hs _ _ _ rfl
  · intro i
    exact clockCount_iff _ _ _ hs i

/-- C2 witness: start 2020-01-01T00:00:00 (epoch 1577836800 s), resolution
900 s, duration 60 min gives exactly the four timestamps 00:00, 00:15,
00:30, 00:45. -/
theorem create_datetime_index_correct_witness :
    (0 : ℚ) < (ProjectSettings.mk 1577836800 900 60 0).step_resolution_sec ∧
    create_datetime_index_from_settings ⟨1577836800, 900, 60, 0⟩ =
      some [1577836800, 1577837700, 1577838600, 1577839500] := by
  refine ⟨by norm_num, ?_⟩
  have h := (create_datetime_index_correct ⟨1577836800, 900, 60, 0⟩ (by norm_num)).1
  rw [h]
  norm_num [specTimestamps, clockCount]
  norm_num [show Int.toNat 4 = 4 from rfl, List.range_succ]

/-- C7 counterexample: with step resolution 0 (not strictly positive) and a
1-minute duration, construction succeeds — `create_time_range_from_settings`
returns `(0, 60, 0)` and `get_simulation_resolution` returns 0 unchecked, no
`InvalidConfig` is raised — and the timestamp loop never terminates. -/
theorem resolution_unchecked_cex :
    create_time_range_from_settings ⟨0, 0, 1, 0⟩ = (0, 60, 0) ∧
    get_simulation_resolution ⟨0, 0, 1, 0⟩ = 0 ∧
    ¬ clockTerminates 0 60 0 := by
  refine ⟨by norm_num [create_time_range_from_settings, get_start_time,
    get_simulation_resolution], rfl, ?_⟩
  rintro ⟨fuel, l, hl⟩
  rw [clockLoop_nonpos 0 60 le_rfl fuel 0 (by norm_num)] at hl
  exact Option.noConfusion hl

/-- C7 amended: the code performs no validation of the step resolution and
defines no `InvalidConfig` failure. With a non-positive resolution and
`start < end` the generation loop never terminates (for any fuel), so the
embedded index function reports divergence; with a positive resolution the
generation terminates with the finite closed-form sequence and no error. -/
theorem resolution_validation_amended (s : ProjectSettings) :
    (s.step_resolution_sec ≤ 0 →
      s.start_time < s.start_time + 60 * s.simulation_duration_min →
      ¬ clockTerminates s.start_time (s.start_time + 60 * s.simulation_duration_min)
          s.step_resolution_sec ∧
      create_datetime_index_from_settings s = none) ∧
    (0 < s.step_resolution_sec →
      create_datetime_index_from_settings s =
        some (specTimestamps s.start_time
          (s.start_time + 60 * s.simulation_duration_min) s.step_resolution_sec)) := by
  constructor
  · intro hstep hlt
    constructor
    · rintro ⟨fuel, l, hl⟩
      rw [clockLoop_nonpos _ _ hstep fuel _ hlt] at hl
      exact Option.noConfusion hl
    · exact clockLoop_nonpos _ _ hstep _ _ hlt
  · intro hstep
    exact clockLoop_pos s.step_resolution_sec hstep _ _ _ rfl

/-- C7 amended witness: both branches at concrete settings — resolution 0
diverges, resolution 900 s produces the finite sequence. -/
theorem resolution_validation_amended_witness :
    ((0 : ℚ) ≤ 0 ∧ (0 : ℚ) < 0 + 60 * 1 ∧
      ¬ clockTerminates 0 (0 + 60 * 1) 0 ∧
      create_datetime_index_from_settings ⟨0, 0, 1, 0⟩ = none) ∧
    ((0 : ℚ) < 900 ∧
      create_datetime_index_from_settings ⟨0, 900, 1, 0⟩ =
        some (specTimestamps 0 (0 + 60 * 1) 900)) := by
  constructor
  · refine ⟨le_rfl, by norm_num, ?_⟩
    exact (resolution_validation_amended ⟨0, 0, 1, 0⟩).1 le_rfl (by norm_num)
  · exact ⟨by norm_num, (resolution_validation_amended ⟨0, 900, 1, 0⟩).2 (by norm_num)⟩

/-! ## Lemmas about TimerStats -/

/-- How one `update` changes each field. -/
theorem update_fields (s : TimerStats) (d : ℚ) :
    (s.update d).count = s.count + 1 ∧
    (s.update d).total = s.total + d ∧
    (s.update d).max = (if s.max < d then d else s.max) ∧
    (s.update d).min = some (match s.min with
      | none => d
      | some m => if d < m then d else m) := by
  unfold TimerStats.update
  by_cases hmax : s.max < d <;> cases hm : s.min <;> simp [hmax, hm] <;>
    split <;> simp_all

theorem foldl_update_count (ds : List ℚ) :
    ∀ s0 : TimerStats, (ds.foldl TimerStats.update s0).count = s0.count + ds.length := by
  induction ds with
  | nil => intro s0; simp
  | cons d ds ih =>
    intro s0
    rw [List.foldl_cons, ih, (update_fields s0 d).1, List.length_cons]
    omega

theorem foldl_update_total (ds : List ℚ) :
    ∀ s0 : TimerStats, (ds.foldl TimerStats.update s0).total = s0.total + ds.sum := by
  induction ds with
  | nil => intro s0; simp
  | cons d ds ih =>
    intro s0
    rw [List.foldl_cons, ih, (update_fields s0 d).2.1, List.sum_cons]
    ring

theorem foldl_update_max_ge (ds : List ℚ) :
    ∀ s0 : TimerStats, s0.max ≤ (ds.foldl TimerStats.update s0).max ∧
      ∀ d ∈ ds, d ≤ (ds.foldl TimerStats.update s0).max := by
  induction ds with
  | nil => intro s0; exact ⟨le_rfl, by simp⟩
  | cons d ds ih =>
    intro s0
    have h1 : s0.max ≤ (s0.update d).max ∧ d ≤ (s0.update d).max := by
      rw [(update_fields s0 d).2.2.1]
      by_cases hc : s0.max < d
      · simp only [if_pos hc]
        exact ⟨le_of_lt hc, le_rfl⟩
      · simp only [if_neg hc]
        exact ⟨le_rfl, by linarith [not_lt.mp hc]⟩
    obtain ⟨ha, hb⟩ := ih (s0.update d)
    rw [List.foldl_cons]
    refine ⟨le_trans h1.1 ha, ?_⟩
    intro x hx
    rcases List.mem_cons.mp hx with rfl | hx2
    · exact le_trans h1.2 ha
    · exact hb x hx2

theorem foldl_update_min_keepSome (ds : List ℚ) :
    ∀ s0 : TimerStats, s0.min.isSome → ((ds.foldl TimerStats.update s0).min).isSome := by
  induction ds with
  | nil => intro s0 h; simpa using h
  | cons d ds ih =>
    intro s0 _
    rw [List.foldl_cons]
    exact ih (s0.update d) (by rw [(update_fields s0 d).2.2.2]; rfl)

theorem foldl_update_min_le (ds : List ℚ) :
    ∀ (s0 : TimerStats) (m : ℚ), (ds.foldl TimerStats.update s0).min = some m →
      (∀ d ∈ ds, m ≤ d) ∧ (∀ x, s0.min = some x → m ≤ x) := by
  induction ds with
  | nil =>
    intro s0 m h
    rw [List.foldl_nil] at h
    refine ⟨by simp, fun x hx => ?_⟩
    rw [hx] at h
    exact le_of_eq (Option.some.inj h).symm
  | cons d ds ih =>
    intro s0 m h
    rw [List.foldl_cons] at h
    obtain ⟨h1, h2⟩ := ih (s0.update d) m h
    have hmv := h2 _ (update_fields s0 d).2.2.2
    constructor
    · intro x hx
      rcases List.mem_cons.mp hx with rfl | hx2
      · cases hm0 : s0.min with
        | none => simpa [hm0] using hmv
        | some m0 =>
          rw [hm0] at hmv
          by_cases hc : x < m0
          · simpa [hc] using hmv
          · have := not_lt.mp hc
            simp only [if_neg hc] at hmv
            linarith
      · exact h1 x hx2
    · intro x hx
      rw [hx] at hmv
      by_cases hc : d < x
      · simp only [if_pos hc] at hmv
        linarith
      · simpa [hc] using hmv

theorem length_mul_le_sum (m : ℚ) (ds : List ℚ) (h : ∀ d ∈ ds, m ≤ d) :
    (ds.length : ℚ) * m ≤ ds.sum := by
  induction ds with
  | nil => simp
  | cons d ds ih =>
    simp only [List.length_cons, List.sum_cons]
    push_cast
    have h1 : m ≤ d := h d (by simp)
    have h2 := ih (fun x hx => h x (by simp [hx]))
    nlinarith

theorem sum_le_length_mul (M : ℚ) (ds : List ℚ) (h : ∀ d ∈ ds, d ≤ M) :
    ds.sum ≤ (ds.length : ℚ) * M := by
  induction ds with
  | nil => simp
  | cons d ds ih =>
    simp only [List.length_cons, List.sum_cons]
    push_cast
    have h1 : d ≤ M := h d (by simp)
    have h2 := ih (fun x hx => h x (by simp [hx]))
    nlinarith

/-- C8: after recording any sequence of non-negative durations, the reported
count is the number of `update` calls, the total is their sum, the average
is `total / count` with `min ≤ avg ≤ max` when at least one sample was
recorded, and the average is the 0 sentinel when no sample was recorded. -/
theorem timer_stats_invariants (label : String) (ds : List ℚ)
    (hpos : ∀ d ∈ ds, 0 ≤ d) :
    (timerStatsAfter label ds).count = ds.length ∧
    (timerStatsAfter label ds).total = ds.sum ∧
    (ds = [] → (timerStatsAfter label ds).avg = 0) ∧
    (ds ≠ [] →
      (timerStatsAfter label ds).avg =
        (timerStatsAfter label ds).total / ((timerStatsAfter label ds).count : ℚ) ∧
      ∃ m, (timerStatsAfter label ds).min = some m ∧
        m ≤ (timerStatsAfter label ds).avg ∧
        (timerStatsAfter label ds).avg ≤ (timerStatsAfter label ds).max) := by
  have hcount : (ds.foldl TimerStats.update { label := label }).count = ds.length := by
    rw [foldl_update_count]
    simp
  have htotal : (ds.foldl TimerStats.update { label := label }).total = ds.sum := by
    rw [foldl_update_total]
    simp
  simp only [timerStatsAfter, TimerStats.get_stats]
  refine ⟨hcount, htotal, ?_, ?_⟩
  · intro h
    subst h
    simp
  · intro hne
    have hlen : 0 < ds.length := List.length_pos.mpr hne
    have hc0 : (ds.foldl TimerStats.update { label := label }).count ≠ 0 := by omega
    have hlenq : (0 : ℚ) < (ds.length : ℚ) := by exact_mod_cast hlen
    refine ⟨by simp [hc0], ?_⟩
    have hsome : ((ds.foldl TimerStats.update { label := label }).min).isSome := by
      obtain ⟨d, ds2, rfl⟩ := List.exists_cons_of_ne_nil hne
      rw [List.foldl_cons]
      exact foldl_update_min_keepSome ds2 _ (by rw [(update_fields _ d).2.2.2]; rfl)
    obtain ⟨m, hm⟩ := Option.isSome_iff_exists.mp hsome
    refine ⟨m, hm, ?_, ?_⟩
    · have hle := (foldl_update_min_le ds _ m hm).1
      have hsum := length_mul_le_sum m ds hle
      have hne0 : ds.length ≠ 0 := by omega
      simp only [hcount, htotal, if_neg hne0]
      rw [le_div_iff₀ hlenq]
      linarith
    · have hle := (foldl_update_max_ge ds { label := label }).2
      have hsum := sum_le_length_mul _ ds hle
      have hne0 : ds.length ≠ 0 := by omega
      simp only [hcount, htotal, if_neg hne0]
      rw [div_le_iff₀ hlenq]
      linarith

/-- C8 witness: durations `[1, 2, 3]` give count 3, total 6, avg 2 with
`min = 1 ≤ 2 ≤ 3 = max`. -/
theorem timer_stats_invariants_witness :
    (∀ d ∈ ([1, 2, 3] : List ℚ), 0 ≤ d) ∧
    (timerStatsAfter "step" [1, 2, 3]).count = 3 ∧
    (timerStatsAfter "step" [1, 2, 3]).total = 6 ∧
    (∃ m, (timerStatsAfter "step" [1, 2, 3]).min = some m ∧
      m ≤ (timerStatsAfter "step" [1, 2, 3]).avg ∧
      (timerStatsAfter "step" [1, 2, 3]).avg ≤ (timerStatsAfter "step" [1, 2, 3]).max) := by
  have h := timer_stats_invariants "step" [1, 2, 3] (by norm_num)
  exact ⟨by norm_num, h.1, by rw [h.2.1]; norm_num, (h.2.2.2 (by simp)).2⟩

/-- C9: `get_stats` reads the fields and mutates nothing: two consecutive
calls return identical summaries and the state after a call is the state
before it. -/
theorem get_stats_idempotent (s : TimerStats) :
    (TimerStats.get_stats ((TimerStats.get_stats s).2)).1 = (TimerStats.get_stats s).1 ∧
    (TimerStats.get_stats s).2 = s :=
  ⟨rfl, rfl⟩

/-! ## Lemmas about the load-shape alignment -/

theorem mapM_lookup_isSome (df : List (ℚ × ℚ)) (idx : List ℚ)
    (h : ∀ t ∈ idx, (df.lookup t).isSome) :
    idx.mapM (fun t => (df.lookup t).map (fun v => (t, v))) =
      some (idx.map (fun t => (t, (df.lookup t).getD 0))) := by
  induction idx with
  | nil => rfl
  | cons t ts ih =>
    rw [List.mapM_cons]
    obtain ⟨v, hv⟩ := Option.isSome_iff_exists.mp (h t (List.mem_cons_self t ts))
    rw [ih (fun x hx => h x (List.mem_cons_of_mem t hx))]
    simp [hv]

theorem mapM_lookup_missing (df : List (ℚ × ℚ)) (idx : List ℚ)
    (h : ¬ ∀ t ∈ idx, (df.lookup t).isSome) :
    idx.mapM (fun t => (df.lookup t).map (fun v => (t, v))) = none := by
  induction idx with
  | nil => exact absurd (by simp) h
  | cons t ts ih =>
    rw [List.mapM_cons]
    cases hl : df.lookup t with
    | none => simp [hl]
    | some v =>
      have hts : ¬ ∀ x ∈ ts, (df.lookup x).isSome := by
        intro hall
        refine h (fun x hx => ?_)
        rcases List.mem_cons.mp hx with rfl | hx2
        · rw [hl]
          rfl
        · exact hall x hx2
      rw [ih hts]
      rfl

/-- C6: the aligned table exists exactly when every simulation timestamp is
a key of the source series (otherwise the `MisalignedTimeSeries` KeyError),
and on success it is indexed by exactly the requested timestamps with each
row taken verbatim from the source series, no interpolation. -/
theorem dfLoc_correct (df : List (ℚ × ℚ)) (idx : List ℚ) :
    ((∃ rows, dfLoc df idx = Except.ok rows) ↔ ∀ t ∈ idx, (df.lookup t).isSome) ∧
    (∀ rows, dfLoc df idx = Except.ok rows →
      rows.map Prod.fst = idx ∧ ∀ p ∈ rows, df.lookup p.1 = some p.2) := by
  unfold dfLoc
  by_cases hc : ∀ t ∈ idx, (df.lookup t).isSome
  · rw [mapM_lookup_isSome df idx hc]
    constructor
    · exact ⟨fun _ => hc, fun _ => ⟨_, rfl⟩⟩
    · intro rows hrows
      have hr : idx.map (fun t => (t, (df.lookup t).getD 0)) = rows := Except.ok.inj hrows
      subst hr
      constructor
      · rw [List.map_map,
          show (Prod.fst ∘ fun t : ℚ => (t, (df.lookup t).getD 0)) = id from rfl,
          List.map_id]
      · intro p hp
        simp only [List.mem_map] at hp
        obtain ⟨t, ht, rfl⟩ := hp
        obtain ⟨v, hv⟩ := Option.isSome_iff_exists.mp (hc t ht)
        simp [hv]
  · rw [mapM_lookup_missing df idx hc]
    constructor
    · constructor
      · rintro ⟨rows, hrows⟩
        exact Except.noConfusion hrows
      · intro h
        exact absurd h hc
    · intro rows hrows
      exact Except.noConfusion hrows

/-- C6 witness: a two-point source covering the two requested timestamps
aligns; the theorem applied at those inputs yields the table. -/
theorem dfLoc_correct_witness :
    (∀ t ∈ ([0, 10] : List ℚ), (([(0, 5), (10, 7)] : List (ℚ × ℚ)).lookup t).isSome) ∧
    (∃ rows, dfLoc [(0, 5), (10, 7)] [0, 10] = Except.ok rows) :=
  ⟨by decide, (dfLoc_correct [(0, 5), (10, 7)] [0, 10]).1.mpr (by decide)⟩

/-! ## The protection-threshold derivation -/

/-- C1: whenever construction succeeds, the eight threshold fields of the
resulting model all equal the fixed standards-table 8-tuple of the chosen
ride-through category, whatever threshold values the user supplied. -/
theorem pv_thresholds_overwritten (raw m : PvVoltageRideThruModel)
    (h : raw.construct = Except.ok m) :
    m.ov_2_pu = (standardsTable raw.ride_through_category).OV2_PU ∧
    m.ov_2_ct_sec = (standardsTable raw.ride_through_category).OV2_CT_SEC ∧
    m.ov_1_pu = (standardsTable raw.ride_through_category).OV1_PU ∧
    m.ov_1_ct_sec = (standardsTable raw.ride_through_category).OV1_CT_SEC ∧
    m.uv_1_pu = (standardsTable raw.ride_through_category).UV1_PU ∧
    m.uv_1_ct_sec = (standardsTable raw.ride_through_category).UV1_CT_SEC ∧
    m.uv_2_pu = (standardsTable raw.ride_through_category).UV2_PU ∧
    m.uv_2_ct_sec = (standardsTable raw.ride_through_category).UV2_CT_SEC := by
  unfold PvVoltageRideThruModel.construct at h
  split at h
  · have hm : raw.update_settings = m := Except.ok.inj h
    subst hm
    cases hcat : raw.ride_through_category <;>
      simp [PvVoltageRideThruModel.update_settings, standardsTable, hcat]
  · exact Except.noConfusion h

/-- A raw input choosing Category II and junk values for all eight
threshold fields. -/
def rawCatII : PvVoltageRideThruModel :=
  { ride_through_category := RideThroughCategory.CATEGORY_II, ov_2_pu := 99, ov_2_ct_sec := 99,
    ov_1_pu := 99, ov_1_ct_sec := 99, uv_1_pu := 99, uv_1_ct_sec := 99, uv_2_pu := 99,
    uv_2_ct_sec := 99 }

/-- C1 witness: the junk Category-II input validates and every threshold
field comes out of the Category-II table column. -/
theorem pv_thresholds_overwritten_witness :
    rawCatII.construct = Except.ok rawCatII.update_settings ∧
    (rawCatII.update_settings.ov_2_pu = (standardsTable rawCatII.ride_through_category).OV2_PU ∧
     rawCatII.update_settings.ov_2_ct_sec = (standardsTable rawCatII.ride_through_category).OV2_CT_SEC ∧
     rawCatII.update_settings.ov_1_pu = (standardsTable rawCatII.ride_through_category).OV1_PU ∧
     rawCatII.update_settings.ov_1_ct_sec = (standardsTable rawCatII.ride_through_category).OV1_CT_SEC ∧
     rawCatII.update_settings.uv_1_pu = (standardsTable rawCatII.ride_through_category).UV1_PU ∧
     rawCatII.update_settings.uv_1_ct_sec = (standardsTable rawCatII.ride_through_category).UV1_CT_SEC ∧
     rawCatII.update_settings.uv_2_pu = (standardsTable rawCatII.ride_through_category).UV2_PU ∧
     rawCatII.update_settings.uv_2_ct_sec = (standardsTable rawCatII.ride_through_category).UV2_CT_SEC) := by
  have hcon : rawCatII.construct = Except.ok rawCatII.update_settings := by
    unfold PvVoltageRideThruModel.construct
    rw [if_pos]
    show (0 : ℚ) ≤ 4 ∧ (0 : ℚ) ≤ 4 ∧ (0 : ℚ) ≤ 3000 ∧ (0 : ℚ) ≤ 300
    norm_num
  exact ⟨hcon, pv_thresholds_overwritten rawCatII rawCatII.update_settings hcon⟩

end PyDSS
